import Mathlib

/-!
Shallow embedding of the bufbuild installer (src/util.js and src/buf.js):
release naming, install cache listing and writing, bounded-redirect HTTP
fetching, PATH probing, and the install orchestrator, together with
theorems settling the specification claims.
-/

deriving instance DecidableEq for Except

namespace Bufbuild

/-- Model of the JS string method startsWith, used by the source for the
platform check, the cache filename filter and the URL scheme asserts:
the second string is a prefix of the character sequence of the first. -/
def strStartsWith (s p : String) : Bool :=
  p.data.isPrefixOf s.data

/-- Model of the JS string method endsWith, used by findBufInPath to
exclude shim directories. -/
def strEndsWith (s suf : String) : Bool :=
  suf.data.isSuffixOf s.data

/-- Model of the JS string method split with a nonempty separator,
working on character lists. The explicit character budget makes the
recursion structural; the budget never runs out when it starts at the
length of the list, because every step consumes at least one character. -/
def splitChars (sep : List Char) : Nat → List Char → List (List Char)
  | _, [] => [[]]
  | 0, l => [l]
  | fuel + 1, c :: rest =>
    if sep.isPrefixOf (c :: rest) then
      [] :: splitChars sep fuel ((c :: rest).drop sep.length)
    else
      match splitChars sep fuel rest with
      | [] => [[c]]
      | s :: ss => (c :: s) :: ss

/-- Model of the JS string method split, used by the source to cut the
latest-release redirect target at the substring slash-v and to cut PATH
at the colon delimiter. -/
def strSplit (s sep : String) : List String :=
  (splitChars sep.data s.data.length s.data).map String.mk

/-- Model of path.join for the two-segment joins the source performs.
Path normalization is elided: every segment that actually occurs is a
nonempty, separator-free directory or file name. -/
def joinPath (a b : String) : String :=
  a ++ "/" ++ b

/-- Release parameters passed to makeReleaseName (util.js line 171):
host platform, cpu architecture and version without leading v. -/
structure ReleaseParameters where
  platform : String
  arch : String
  version : String
deriving DecidableEq

/-- Binary file part of a release name (util.js lines 172 to 184):
platforms starting with win collapse to windows plus an exe extension,
the platform name is capitalized, arch x64 becomes x86_64 and every
other arch passes through unchanged. -/
def binFileName (platform0 arch0 : String) : String :=
  let pe := if strStartsWith platform0 "win" then ("windows", ".exe") else (platform0, "")
  "buf-" ++ pe.1.capitalize ++ "-" ++ (if arch0 = "x64" then "x86_64" else arch0) ++ pe.2

/-- makeReleaseName (util.js lines 171 to 185): the version verbatim, a
slash, then the derived binary file name. -/
def makeReleaseName (params : ReleaseParameters) : String :=
  params.version ++ "/" ++ binFileName params.platform params.arch

/-- One immediate entry of the install cache root: either a version
directory holding named files with byte contents, or a plain file,
which listInstalled skips. -/
inductive RootEntry where
  | dir (name : String) (files : List (String × List Nat))
  | file (name : String) (content : List Nat)
deriving DecidableEq

/-- Name of a root entry as readdirSync reports it. -/
def RootEntry.name : RootEntry → String
  | .dir n _ => n
  | .file n _ => n

/-- Installed cache entry, DistEntry in util.js lines 33 to 38. -/
structure DistEntry where
  name : String
  version : String
  bufPath : String
deriving DecidableEq

/-- listInstalled (util.js lines 44 to 66): empty when the root does not
exist; non-directories in the root are skipped; inside each version
directory the files whose name starts with buf- yield an entry with the
derived name, version and bufPath. The argument is none when the root
directory does not exist, otherwise the list of its immediate entries. -/
def listInstalled (installDir : String) : Option (List RootEntry) → List DistEntry
  | none => []
  | some es =>
    es.flatMap fun e =>
      match e with
      | .file _ _ => []
      | .dir version files =>
        ((files.map Prod.fst).filter (fun b => strStartsWith b "buf-")).map fun b =>
          { name := version ++ "/" ++ b
            version := version
            bufPath := joinPath (joinPath installDir version) b }

/-- Helper for the model of path.dirname and path.basename: splits a
character list at its last slash. -/
def splitLastAux : List Char → Option (List Char × List Char)
  | [] => none
  | c :: rest =>
    match splitLastAux rest with
    | some (d, b) => some (c :: d, b)
    | none => if c = '/' then some ([], rest) else none

/-- Splits a relative path at its last slash into directory part and
base name, as path.dirname and path.basename would; none when the
string has no slash at all. -/
def splitLastSlash (s : String) : Option (String × String) :=
  (splitLastAux s.data).map fun db => (String.mk db.1, String.mk db.2)

/-- Filesystem errors of the cache write path. mkDirRecursive at util.js
line 14 raises notADirectory when a path component exists as a file;
writeFileSync raises isADirectory when the target is a directory.
outsideModel marks release names that do not denote one file inside one
version directory, which the one-level cache model does not represent. -/
inductive FsError where
  | notADirectory (p : String)
  | isADirectory (p : String)
  | outsideModel (r : String)
deriving DecidableEq

/-- writeFileSync inside an existing directory: overwrite the file when
present, append it otherwise. -/
def writeFileAt (files : List (String × List Nat)) (b : String) (bytes : List Nat) :
    List (String × List Nat) :=
  if files.any (fun f => f.1 == b) then
    files.map fun f => if f.1 = b then (b, bytes) else f
  else
    files ++ [(b, bytes)]

/-- Update every directory named v by writing file b with the given
bytes into it, as writeFileSync at root/v/b does. -/
def updateDir (es : List RootEntry) (v b : String) (bytes : List Nat) : List RootEntry :=
  es.map fun e =>
    match e with
    | .dir n files => if n = v then .dir n (writeFileAt files b bytes) else .dir n files
    | .file n c => .file n c

/-- Write a file directly at the cache root, as writeFileSync does when
the release name has no directory part left after joining. Fails when a
directory of that name is already present. -/
def writeRootFile (es : List RootEntry) (b : String) (bytes : List Nat) :
    Except FsError (List RootEntry) :=
  match es.find? (fun e => e.name == b) with
  | some (.dir _ _) => .error (.isADirectory b)
  | some (.file _ _) => .ok (es.map fun e => if e.name = b then .file b bytes else e)
  | none => .ok (es ++ [.file b bytes])

/-- Cache write path (buf.js lines 96 to 99): mkDirRecursive on the
directory part of the release name under the root, then writeFileSync at
the joined path. A missing root is created along the way. The one-level
model covers release names of the form dir slash file with a nonempty
separator-free base name; path.join collapses an empty directory part
onto the root itself. -/
def writeRelease (fsys : Option (List RootEntry)) (releaseName : String) (bytes : List Nat) :
    Except FsError (List RootEntry) :=
  let es := fsys.getD []
  match splitLastSlash releaseName with
  | none =>
    if releaseName = "" then .error (.outsideModel releaseName)
    else writeRootFile es releaseName bytes
  | some (v, b) =>
    if b = "" then .error (.outsideModel releaseName)
    else if v = "" then writeRootFile es b bytes
    else if '/' ∈ v.data then .error (.outsideModel releaseName)
    else
      match es.find? (fun e => e.name == v) with
      | some (.file _ _) => .error (.notADirectory v)
      | some (.dir _ _) => .ok (updateDir es v b bytes)
      | none => .ok (es ++ [.dir v [(b, bytes)]])

/-- Abstract HTTP response: status code, optional Location header and
body bytes. A server is modelled as a function from URL to response. -/
structure HttpResponse where
  status : Nat
  location : Option String
  body : List Nat
deriving DecidableEq

/-- Failure modes of the HTTP helpers in util.js. assertUrl models the
input asserts on the URL; tooManyRedirects models the assert that the
redirect chain has at most 3 entries; assertLocation models the assert
that a redirect response carries a nonempty Location header; httpStatus
carries a non-2xx non-3xx status with the requested URL; noRedirect is
the did-not-get-expected-redirect failure of httpGetRedirect. -/
inductive NetError where
  | assertUrl (url : String)
  | tooManyRedirects (redirects : List String)
  | assertLocation (url : String)
  | httpStatus (code : Nat) (url : String)
  | noRedirect (url : String)
deriving DecidableEq

/-- URL input contract asserted by the HTTP helpers: nonempty and an
http or https scheme. -/
def validUrl (url : String) : Bool :=
  (0 < url.length : Bool) && (strStartsWith url "https://" || strStartsWith url "http://")

/-- httpGet (util.js lines 123 to 144): follows 3xx responses through
the Location header, accumulating the redirect chain and refusing once
the chain holds more than 3 entries; a non-3xx non-200 status is an
error; a 200 response is returned to the caller. -/
def httpGet (net : String → HttpResponse) (url : String) (redirects : List String) :
    Except NetError HttpResponse :=
  if ¬ validUrl url then .error (.assertUrl url)
  else if redirects.length > 3 then .error (.tooManyRedirects redirects)
  else if 300 ≤ (net url).status ∧ (net url).status < 400 then
    match (net url).location with
    | none => .error (.assertLocation url)
    | some loc =>
      if loc.length = 0 then .error (.assertLocation url)
      else httpGet net loc (redirects ++ [loc])
  else if (net url).status ≠ 200 then .error (.httpStatus (net url).status url)
  else .ok (net url)
termination_by 4 - redirects.length
decreasing_by
  simp only [List.length_append, List.length_cons, List.length_nil]
  omega

/-- httpDownload (util.js lines 73 to 91): drains the body of the
response obtained by httpGet starting from an empty redirect chain. -/
def httpDownload (net : String → HttpResponse) (url : String) : Except NetError (List Nat) :=
  match httpGet net url [] with
  | .ok r => .ok r.body
  | .error e => .error e

/-- httpGetRedirect (util.js lines 97 to 115): resolves with the
immediate Location header of a 3xx response and follows nothing; a
non-3xx non-200 status is an HTTP status error; a direct 200 is the
did-not-get-expected-redirect error. -/
def httpGetRedirect (net : String → HttpResponse) (url : String) : Except NetError String :=
  if ¬ validUrl url then .error (.assertUrl url)
  else if 300 ≤ (net url).status ∧ (net url).status < 400 then
    match (net url).location with
    | none => .error (.assertLocation url)
    | some loc => if loc.length = 0 then .error (.assertLocation url) else .ok loc
  else if (net url).status ≠ 200 then .error (.httpStatus (net url).status url)
  else .error (.noRedirect url)

/-- Tilde expansion step of findBufInPath (util.js line 251): a
candidate whose first character is a tilde is re-rooted at the home
directory. -/
def expandTilde (home c : String) : String :=
  if c.data.head? = some '~' then joinPath home (c.drop 1) else c

/-- Candidate executable paths of findBufInPath (util.js lines 247 to
251) on a posix host: split PATH on the colon delimiter, drop the
node_modules/.bin and .npm-global/bin shim directories, append the buf
executable name and expand a leading tilde. -/
def bufCandidates (home s : String) : List String :=
  ((((strSplit s ":").filter (fun p => !strEndsWith p "node_modules/.bin")).filter
      (fun p => !strEndsWith p ".npm-global/bin")).map
    (fun p => joinPath p "buf")).map (expandTilde home)

/-- findBufInPath (util.js lines 243 to 259) on a posix host, with disk
existence abstracted into a predicate on paths: an unset PATH yields
none, otherwise the first candidate that exists is returned. -/
def findBufInPath (exists? : String → Bool) (home : String) (envPath : Option String) :
    Option String :=
  match envPath with
  | none => none
  | some s => (bufCandidates home s).find? exists?

/-- Observable side effects of one ensureInstalled run: the latest
version redirect lookup, the artifact download and the cache write. -/
inductive Event where
  | netRedirect (url : String)
  | netDownload (url : String)
  | fsWrite (releaseName : String)
deriving DecidableEq

/-- Errors raised by ensureInstalled in buf.js: the wrapped failure to
retrieve the latest version number, the wrapped download failure, a
propagated filesystem error of the write path, and the fatal
post-install verification failure. -/
inductive BufError where
  | failedRetrieveLatest (e : NetError)
  | failedDownload (version : String) (e : NetError)
  | fsError (e : FsError)
  | failedInstall (version : String)
deriving DecidableEq

/-- Fixed URL whose redirect target encodes the latest version
(buf.js line 67). -/
def latestUrl : String :=
  "https://github.com/bufbuild/buf/releases/latest"

/-- Download URL for a release name (buf.js line 91). -/
def downloadUrl (releaseName : String) : String :=
  "https://github.com/bufbuild/buf/releases/download/v" ++ releaseName

/-- Version resolution step of ensureInstalled (buf.js lines 63 to 72):
a concrete version other than the literal latest is used unchanged with
no network traffic; for latest or an absent version the redirect target
of the fixed latest URL is fetched and the version is everything after
the last occurrence of the substring slash-v in it; a fetch failure is
re-thrown wrapped in failedRetrieveLatest. The second component records
the network events performed. -/
def resolveVersion (net : String → HttpResponse) (version : Option String) :
    Except BufError String × List Event :=
  if version = some "latest" ∨ version = none then
    match httpGetRedirect net latestUrl with
    | .ok loc => (.ok ((strSplit loc "/v").getLastD ""), [.netRedirect latestUrl])
    | .error e => (.error (.failedRetrieveLatest e), [.netRedirect latestUrl])
  else
    (.ok (version.getD ""), [])

/-- Host environment of one ensureInstalled run: host platform and
architecture, the network, the cache root path and its contents. -/
structure Env where
  platform : String
  arch : String
  net : String → HttpResponse
  root : String
  fsys : Option (List RootEntry)

/-- Outcome of one ensureInstalled run: the returned entry or error,
the side effects performed, and the cache contents afterwards. -/
structure InstallResult where
  result : Except BufError DistEntry
  events : List Event
  fsys : Option (List RootEntry)

/-- ensureInstalled (buf.js lines 62 to 110): resolve the version,
derive the release name for the host platform and architecture, return
the cached entry when the listing already holds it, otherwise download
the artifact, write it below the cache root and re-query the listing,
failing with failedInstall when the entry still cannot be found. -/
def ensureInstalled (env : Env) (version : Option String) : InstallResult :=
  let rv := resolveVersion env.net version
  match rv.1 with
  | .error e => ⟨.error e, rv.2, env.fsys⟩
  | .ok v =>
    let releaseName := makeReleaseName ⟨env.platform, env.arch, v⟩
    match (listInstalled env.root env.fsys).find? (fun i => i.name == releaseName) with
    | some entry => ⟨.ok entry, rv.2, env.fsys⟩
    | none =>
      let evs := rv.2 ++ [.netDownload (downloadUrl releaseName)]
      match httpDownload env.net (downloadUrl releaseName) with
      | .error e => ⟨.error (.failedDownload v e), evs, env.fsys⟩
      | .ok bytes =>
        let evs := evs ++ [.fsWrite releaseName]
        match writeRelease env.fsys releaseName bytes with
        | .error e => ⟨.error (.fsError e), evs, env.fsys⟩
        | .ok fs2 =>
          match (listInstalled env.root (some fs2)).find? (fun i => i.name == releaseName) with
          | some installed => ⟨.ok installed, evs, some fs2⟩
          | none => ⟨.error (.failedInstall v), evs, some fs2⟩

/-- Concrete server answering a chain of three redirects and then 200. -/
def netChain3 (u : String) : HttpResponse :=
  if u = "https://a" then ⟨301, some "https://b", []⟩
  else if u = "https://b" then ⟨302, some "https://c", []⟩
  else if u = "https://c" then ⟨303, some "https://d", []⟩
  else if u = "https://d" then ⟨200, none, [9]⟩
  else ⟨404, none, []⟩

/-- Concrete server answering four redirects in a row. -/
def netChain4 (u : String) : HttpResponse :=
  if u = "https://a" then ⟨301, some "https://b", []⟩
  else if u = "https://b" then ⟨302, some "https://c", []⟩
  else if u = "https://c" then ⟨303, some "https://d", []⟩
  else if u = "https://d" then ⟨307, some "https://e", []⟩
  else ⟨200, none, []⟩

/-- Concrete server answering 404 everywhere. -/
def net404 (_ : String) : HttpResponse :=
  ⟨404, none, []⟩

/-- Concrete server answering 200 everywhere. -/
def net200 (_ : String) : HttpResponse :=
  ⟨200, none, []⟩

/-- Concrete server answering one redirect to a fixed target. -/
def netRedir (_ : String) : HttpResponse :=
  ⟨302, some "https://t", []⟩

/-- Concrete server redirecting the latest-release URL to the tag of
version 1.6.0. -/
def netLatest (u : String) : HttpResponse :=
  if u = latestUrl then
    ⟨302, some "https://github.com/bufbuild/buf/releases/tag/v1.6.0", []⟩
  else ⟨404, none, []⟩

/-- Concrete server answering 500 everywhere. -/
def netFail (_ : String) : HttpResponse :=
  ⟨500, none, []⟩

/-- Concrete server serving the download of the release of the empty
version directly with a 200. -/
def netDlEmpty (u : String) : HttpResponse :=
  if u = downloadUrl "/buf-Darwin-arm64" then ⟨200, none, [1, 2, 3]⟩ else ⟨404, none, []⟩

/-- Concrete environment whose cache already holds the 1.6.0 release
for the darwin arm64 host. -/
def envHit : Env :=
  ⟨"darwin", "arm64", netFail, "/r", some [.dir "1.6.0" [("buf-Darwin-arm64", [7])]]⟩

/-- Cache entry of envHit as listInstalled derives it. -/
def entryHit : DistEntry :=
  ⟨"1.6.0/buf-Darwin-arm64", "1.6.0", "/r/1.6.0/buf-Darwin-arm64"⟩

/-- Concrete environment with no cache root, on a server that serves
the download of the empty version. -/
def envEmptyVersion : Env :=
  ⟨"darwin", "arm64", netDlEmpty, "/r", none⟩

/-- Concrete existence predicate true only at one system binary path. -/
def existsUsr (c : String) : Bool :=
  c == "/usr/local/bin/buf"

/-- Membership characterization of the cache listing: the entries are
exactly those derived from a buf-prefixed file of a version directory. -/
theorem mem_listInstalled {root : String} {es : List RootEntry} {e : DistEntry} :
    e ∈ listInstalled root (some es) ↔
      ∃ v files b, RootEntry.dir v files ∈ es ∧ b ∈ files.map Prod.fst ∧
        strStartsWith b "buf-" = true ∧
        e = ⟨v ++ "/" ++ b, v, joinPath (joinPath root v) b⟩ := by
  constructor
  · intro h
    simp only [listInstalled, List.mem_flatMap] at h
    obtain ⟨a, ha, he⟩ := h
    cases a with
    | file n c => simp at he
    | dir v files =>
      rw [List.mem_map] at he
      obtain ⟨b, hbf, rfl⟩ := he
      rw [List.mem_filter] at hbf
      exact ⟨v, files, b, ha, hbf.1, hbf.2, rfl⟩
  · rintro ⟨v, files, b, ha, hb, hpre, rfl⟩
    simp only [listInstalled, List.mem_flatMap]
    refine ⟨.dir v files, ha, ?_⟩
    rw [List.mem_map]
    exact ⟨b, List.mem_filter.mpr ⟨hb, hpre⟩, rfl⟩

/-- A character list without a slash has no last-slash split. -/
theorem splitLastAux_of_not_mem {l : List Char} (h : '/' ∉ l) : splitLastAux l = none := by
  induction l with
  | nil => rfl
  | cons c rest ih =>
    have hc : c ≠ '/' := fun hc => h (hc ▸ List.mem_cons_self c rest)
    have hr : '/' ∉ rest := fun hm => h (List.mem_cons_of_mem _ hm)
    simp [splitLastAux, ih hr, hc]

/-- Splitting at the last slash of a slash-free tail finds that slash. -/
theorem splitLastAux_append (v : List Char) {b : List Char} (hb : '/' ∉ b) :
    splitLastAux (v ++ '/' :: b) = some (v, b) := by
  induction v with
  | nil => simp [splitLastAux, splitLastAux_of_not_mem hb]
  | cons c v ih => simp [splitLastAux, ih]

/-- Splitting a release name of the shape version slash binary at its
last slash recovers the two components when the binary file name is
slash-free. -/
theorem splitLastSlash_releaseName (v : String) {bfn : String} (hb : '/' ∉ bfn.data) :
    splitLastSlash (v ++ "/" ++ bfn) = some (v, bfn) := by
  unfold splitLastSlash
  have hd : (v ++ "/" ++ bfn).data = v.data ++ '/' :: bfn.data := by
    simp [String.data_append, show ("/" : String).data = ['/'] from rfl]
  rw [hd, splitLastAux_append v.data hb]
  rfl

/-- Every derived binary file name starts with the buf- marker. -/
theorem binFileName_startsWith (p a : String) :
    strStartsWith (binFileName p a) "buf-" = true := by
  cases hw : strStartsWith p "win" <;>
    simp [binFileName, hw, strStartsWith, List.isPrefixOf_iff_prefix, String.data_append,
      List.append_assoc]

/-- A derived binary file name is never empty. -/
theorem binFileName_ne_empty (p a : String) : binFileName p a ≠ "" := by
  intro h
  have hs := binFileName_startsWith p a
  rw [h] at hs
  exact absurd hs (by decide)

/-- Writing a file into a directory listing makes its name a member. -/
theorem mem_writeFileAt (files : List (String × List Nat)) (b : String) (bytes : List Nat) :
    b ∈ (writeFileAt files b bytes).map Prod.fst := by
  unfold writeFileAt
  split
  · next h =>
    rw [List.any_eq_true] at h
    obtain ⟨x, hx, hxb⟩ := h
    rw [beq_iff_eq] at hxb
    exact List.mem_map.mpr ⟨(b, bytes), List.mem_map.mpr ⟨x, hx, by simp [hxb]⟩, rfl⟩
  · exact List.mem_map.mpr ⟨(b, bytes), List.mem_append_right _ (List.mem_singleton_self _), rfl⟩

/-- A URL accepted by the input asserts is nonempty. -/
theorem validUrl_length_pos {u : String} (h : validUrl u = true) : u.length ≠ 0 := by
  unfold validUrl at h
  rw [Bool.and_eq_true] at h
  have h1 := h.1
  simp only [decide_eq_true_eq] at h1
  omega

/-- One redirect hop of httpGet under a chain that is still short
enough: the fetch recurses on the Location target. -/
theorem httpGet_redirect_step (net : String → HttpResponse) (url loc : String)
    (redirects : List String) (h1 : validUrl url = true) (h2 : redirects.length ≤ 3)
    (hs1 : 300 ≤ (net url).status) (hs2 : (net url).status < 400)
    (hloc : (net url).location = some loc) (hl : loc.length ≠ 0) :
    httpGet net url redirects = httpGet net loc (redirects ++ [loc]) := by
  conv_lhs => rw [httpGet]
  rw [if_neg (by simp [h1]), if_neg (by omega), if_pos ⟨hs1, hs2⟩, hloc]
  simp [hl]

/-- Terminal 200 case of httpGet: the response is returned. -/
theorem httpGet_ok_step (net : String → HttpResponse) (url : String)
    (redirects : List String) (h1 : validUrl url = true) (h2 : redirects.length ≤ 3)
    (hs : (net url).status = 200) :
    httpGet net url redirects = .ok (net url) := by
  conv_lhs => rw [httpGet]
  rw [if_neg (by simp [h1]), if_neg (by omega), if_neg (by rw [hs]; decide),
    if_neg (by rw [hs]; decide)]

/-- Chain-limit case of httpGet: more than 3 accumulated redirects are
refused. -/
theorem httpGet_too_many_step (net : String → HttpResponse) (url : String)
    (redirects : List String) (h1 : validUrl url = true) (h2 : redirects.length > 3) :
    httpGet net url redirects = .error (.tooManyRedirects redirects) := by
  conv_lhs => rw [httpGet]
  rw [if_neg (by simp [h1]), if_pos h2]

/-- Download of a directly served 200 response yields its body. -/
theorem httpDownload_direct (net : String → HttpResponse) (url : String) (body0 : List Nat)
    (h1 : validUrl url = true) (hr : net url = ⟨200, none, body0⟩) :
    httpDownload net url = .ok body0 := by
  unfold httpDownload
  rw [httpGet_ok_step net url [] h1 (by simp) (by rw [hr])]
  rw [hr]

/-- C1: makeReleaseName is a pure deterministic function of platform,
arch and version implementing the stated normalization: any platform
starting with win collapses to Windows with an exe extension, the
platform name is capitalized, arch x64 is renamed to x86_64 while all
other arch strings pass through unchanged, and the version is used
verbatim as the leading path segment; in particular the win32 x64 1.6.0
and darwin arm64 1.6.0 examples evaluate as stated. -/
theorem C1_makeReleaseName_normalization :
    (∀ p a v : String, makeReleaseName ⟨p, a, v⟩ =
        v ++ "/" ++ "buf-" ++ (if strStartsWith p "win" then "Windows" else p.capitalize) ++
          "-" ++ (if a = "x64" then "x86_64" else a) ++
          (if strStartsWith p "win" then ".exe" else "")) ∧
    makeReleaseName ⟨"win32", "x64", "1.6.0"⟩ = "1.6.0/buf-Windows-x86_64.exe" ∧
    makeReleaseName ⟨"darwin", "arm64", "1.6.0"⟩ = "1.6.0/buf-Darwin-arm64" := by
  refine ⟨?_, by decide, by decide⟩
  intro p a v
  have hcap : ("windows" : String).capitalize = "Windows" := by decide
  cases hw : strStartsWith p "win" <;>
    simp [makeReleaseName, binFileName, hw, hcap, String.append_assoc] <;>
    rfl

/-- C2: when the cache listing already holds an entry whose name equals
the release name derived from the host platform and arch and the
requested concrete version, ensureInstalled returns that entry
immediately, performs no network operation and no cache write, and
leaves the cache unchanged. -/
theorem C2_ensureInstalled_cache_hit (env : Env) (v : String) (hv : v ≠ "latest")
    (e : DistEntry)
    (hfind : (listInstalled env.root env.fsys).find?
        (fun i => i.name == makeReleaseName ⟨env.platform, env.arch, v⟩) = some e) :
    ensureInstalled env (some v) = ⟨.ok e, [], env.fsys⟩ := by
  have hrv : resolveVersion env.net (some v) = (.ok v, []) := by
    simp [resolveVersion, hv]
  simp only [ensureInstalled, hrv, hfind]

/-- Witness for C2 at a concrete darwin arm64 host whose cache already
holds the 1.6.0 release. -/
theorem C2_witness :
    ensureInstalled envHit (some "1.6.0") = ⟨.ok entryHit, [], envHit.fsys⟩ :=
  C2_ensureInstalled_cache_hit envHit "1.6.0" (by decide) entryHit (by decide)

/-- C3: after writing artifact bytes via the cache-write path at a
release name derived from a nonempty separator-free version, the very
next listing of the cache root contains an entry whose name equals that
release name. The separator-freedom hypotheses state that the version
and the derived binary file name are legal file names. -/
theorem C3_write_then_list_roundtrip (root : String) (fsys : Option (List RootEntry))
    (p a v : String) (bytes : List Nat) (fs2 : List RootEntry)
    (hv : v ≠ "") (hv2 : '/' ∉ v.data) (hb : '/' ∉ (binFileName p a).data)
    (hw : writeRelease fsys (makeReleaseName ⟨p, a, v⟩) bytes = .ok fs2) :
    ∃ e ∈ listInstalled root (some fs2), e.name = makeReleaseName ⟨p, a, v⟩ := by
  have hsplit : splitLastSlash (makeReleaseName ⟨p, a, v⟩) = some (v, binFileName p a) :=
    splitLastSlash_releaseName v hb
  simp only [writeRelease, hsplit] at hw
  rw [if_neg (binFileName_ne_empty p a), if_neg hv, if_neg hv2] at hw
  cases hfind : (fsys.getD []).find? (fun e => e.name == v) with
  | none =>
    simp only [hfind] at hw
    obtain rfl := Except.ok.inj hw
    refine ⟨⟨v ++ "/" ++ binFileName p a, v, joinPath (joinPath root v) (binFileName p a)⟩,
      ?_, rfl⟩
    exact mem_listInstalled.mpr ⟨v, [(binFileName p a, bytes)], binFileName p a,
      List.mem_append_right _ (List.mem_singleton_self _), by simp,
      binFileName_startsWith p a, rfl⟩
  | some entry =>
    cases entry with
    | file n c =>
      simp only [hfind] at hw
      exact Except.noConfusion hw
    | dir n files =>
      simp only [hfind] at hw
      have hmem := List.mem_of_find?_eq_some hfind
      have hn : n = v := by
        have hp := List.find?_some hfind
        simpa [RootEntry.name] using hp
      rw [hn] at hmem
      obtain rfl := Except.ok.inj hw
      refine ⟨⟨v ++ "/" ++ binFileName p a, v, joinPath (joinPath root v) (binFileName p a)⟩,
        ?_, rfl⟩
      refine mem_listInstalled.mpr ⟨v, writeFileAt files (binFileName p a) bytes,
        binFileName p a, ?_, mem_writeFileAt files _ bytes, binFileName_startsWith p a, rfl⟩
      unfold updateDir
      exact List.mem_map.mpr ⟨.dir v files, hmem, by simp⟩

/-- Witness for C3: writing the darwin arm64 1.6.0 release into an
absent cache root and listing it again surfaces the written entry. -/
theorem C3_witness :
    ∃ e ∈ listInstalled "/r" (some [RootEntry.dir "1.6.0" [("buf-Darwin-arm64", [1, 2])]]),
      e.name = makeReleaseName ⟨"darwin", "arm64", "1.6.0"⟩ :=
  C3_write_then_list_roundtrip "/r" none "darwin" "arm64" "1.6.0" [1, 2]
    [RootEntry.dir "1.6.0" [("buf-Darwin-arm64", [1, 2])]]
    (by decide) (by decide) (by decide) (by decide)

/-- C4: httpGet follows 3xx responses by re-issuing GET to the Location
header while accumulating the redirect chain; a request answered by
exactly 3 redirects followed by a 200 succeeds with that response,
while a request answered by 4 redirects fails with the too-many
redirects error, the fourth target never being fetched since the
server response at it is unconstrained. -/
theorem C4_httpGet_redirect_chain :
    (∀ (net : String → HttpResponse) (u0 u1 u2 u3 : String) (s0 s1 s2 : Nat)
        (b0 b1 b2 bF : List Nat),
      validUrl u0 = true → validUrl u1 = true → validUrl u2 = true → validUrl u3 = true →
      net u0 = ⟨s0, some u1, b0⟩ → 300 ≤ s0 → s0 < 400 →
      net u1 = ⟨s1, some u2, b1⟩ → 300 ≤ s1 → s1 < 400 →
      net u2 = ⟨s2, some u3, b2⟩ → 300 ≤ s2 → s2 < 400 →
      net u3 = ⟨200, none, bF⟩ →
      httpGet net u0 [] = .ok ⟨200, none, bF⟩) ∧
    (∀ (net : String → HttpResponse) (u0 u1 u2 u3 u4 : String) (s0 s1 s2 s3 : Nat)
        (b0 b1 b2 b3 : List Nat),
      validUrl u0 = true → validUrl u1 = true → validUrl u2 = true → validUrl u3 = true →
      validUrl u4 = true →
      net u0 = ⟨s0, some u1, b0⟩ → 300 ≤ s0 → s0 < 400 →
      net u1 = ⟨s1, some u2, b1⟩ → 300 ≤ s1 → s1 < 400 →
      net u2 = ⟨s2, some u3, b2⟩ → 300 ≤ s2 → s2 < 400 →
      net u3 = ⟨s3, some u4, b3⟩ → 300 ≤ s3 → s3 < 400 →
      httpGet net u0 [] = .error (.tooManyRedirects [u1, u2, u3, u4])) := by
  constructor
  · intro net u0 u1 u2 u3 s0 s1 s2 b0 b1 b2 bF h0 h1 h2 h3 r0 r0a r0b r1 r1a r1b r2 r2a r2b r3
    rw [httpGet_redirect_step net u0 u1 [] h0 (by simp) (by rw [r0]; exact r0a)
      (by rw [r0]; exact r0b) (by rw [r0]) (validUrl_length_pos h1)]
    simp only [List.nil_append, List.cons_append]
    rw [httpGet_redirect_step net u1 u2 [u1] h1 (by simp) (by rw [r1]; exact r1a)
      (by rw [r1]; exact r1b) (by rw [r1]) (validUrl_length_pos h2)]
    simp only [List.nil_append, List.cons_append]
    rw [httpGet_redirect_step net u2 u3 [u1, u2] h2 (by simp) (by rw [r2]; exact r2a)
      (by rw [r2]; exact r2b) (by rw [r2]) (validUrl_length_pos h3)]
    simp only [List.nil_append, List.cons_append]
    rw [httpGet_ok_step net u3 [u1, u2, u3] h3 (by simp) (by rw [r3]), r3]
  · intro net u0 u1 u2 u3 u4 s0 s1 s2 s3 b0 b1 b2 b3 h0 h1 h2 h3 h4
    intro r0 r0a r0b r1 r1a r1b r2 r2a r2b r3 r3a r3b
    rw [httpGet_redirect_step net u0 u1 [] h0 (by simp) (by rw [r0]; exact r0a)
      (by rw [r0]; exact r0b) (by rw [r0]) (validUrl_length_pos h1)]
    simp only [List.nil_append, List.cons_append]
    rw [httpGet_redirect_step net u1 u2 [u1] h1 (by simp) (by rw [r1]; exact r1a)
      (by rw [r1]; exact r1b) (by rw [r1]) (validUrl_length_pos h2)]
    simp only [List.nil_append, List.cons_append]
    rw [httpGet_redirect_step net u2 u3 [u1, u2] h2 (by simp) (by rw [r2]; exact r2a)
      (by rw [r2]; exact r2b) (by rw [r2]) (validUrl_length_pos h3)]
    simp only [List.nil_append, List.cons_append]
    rw [httpGet_redirect_step net u3 u4 [u1, u2, u3] h3 (by simp) (by rw [r3]; exact r3a)
      (by rw [r3]; exact r3b) (by rw [r3]) (validUrl_length_pos h4)]
    simp only [List.nil_append, List.cons_append]
    exact httpGet_too_many_step net u4 [u1, u2, u3, u4] h4 (by simp)

/-- Witness for C4 on two concrete servers: a chain of three redirects
ending in a 200 succeeds, a chain of four redirects is refused. -/
theorem C4_witness :
    httpGet netChain3 "https://a" [] = .ok ⟨200, none, [9]⟩ ∧
    httpGet netChain4 "https://a" [] =
      .error (.tooManyRedirects ["https://b", "https://c", "https://d", "https://e"]) := by
  constructor
  · exact C4_httpGet_redirect_chain.1 netChain3 "https://a" "https://b" "https://c"
      "https://d" 301 302 303 [] [] [] [9] (by decide) (by decide) (by decide) (by decide)
      (by decide) (by decide) (by decide) (by decide) (by decide) (by decide) (by decide)
      (by decide) (by decide) (by decide)
  · exact C4_httpGet_redirect_chain.2 netChain4 "https://a" "https://b" "https://c"
      "https://d" "https://e" 301 302 303 307 [] [] [] [] (by decide) (by decide)
      (by decide) (by decide) (by decide) (by decide) (by decide) (by decide) (by decide)
      (by decide) (by decide) (by decide) (by decide) (by decide) (by decide) (by decide)
      (by decide)

/-- C5: for every input string other than the literal latest the
version resolution step of ensureInstalled uses it unchanged with no
network event; for an absent input or the literal latest it fetches the
redirect target of the fixed latest-release URL and resolves to
everything after the last occurrence of the substring slash-v in that
target; a fetch failure is re-thrown wrapped in the
failed-to-retrieve-latest error, never swallowed. -/
theorem C5_resolveVersion_contract (net : String → HttpResponse) :
    (∀ v : String, v ≠ "latest" → resolveVersion net (some v) = (.ok v, [])) ∧
    (∀ vopt : Option String, vopt = none ∨ vopt = some "latest" →
      ∀ loc : String, httpGetRedirect net latestUrl = .ok loc →
        resolveVersion net vopt =
          (.ok ((strSplit loc "/v").getLastD ""), [.netRedirect latestUrl])) ∧
    (∀ vopt : Option String, vopt = none ∨ vopt = some "latest" →
      ∀ e : NetError, httpGetRedirect net latestUrl = .error e →
        resolveVersion net vopt =
          (.error (.failedRetrieveLatest e), [.netRedirect latestUrl])) := by
  refine ⟨?_, ?_, ?_⟩
  · intro v hv
    simp [resolveVersion, hv]
  · intro vopt hv loc hloc
    rcases hv with rfl | rfl <;> simp [resolveVersion, hloc]
  · intro vopt hv e he
    rcases hv with rfl | rfl <;> simp [resolveVersion, he]

/-- Witness for C5: a concrete version passes through without traffic,
the latest lookup parses the version out of a concrete redirect target,
and a failing lookup surfaces the wrapped error. -/
theorem C5_witness :
    resolveVersion netLatest (some "1.6.0") = (.ok "1.6.0", []) ∧
    resolveVersion netLatest none = (.ok "1.6.0", [.netRedirect latestUrl]) ∧
    resolveVersion netFail (some "latest") =
      (.error (.failedRetrieveLatest (.httpStatus 500 latestUrl)), [.netRedirect latestUrl]) := by
  refine ⟨C5_resolveVersion_contract netLatest |>.1 "1.6.0" (by decide), ?_, ?_⟩
  · have h := C5_resolveVersion_contract netLatest |>.2.1 none (Or.inl rfl)
      "https://github.com/bufbuild/buf/releases/tag/v1.6.0" (by decide)
    rw [h]
    decide
  · exact C5_resolveVersion_contract netFail |>.2.2 (some "latest") (Or.inr rfl)
      (.httpStatus 500 latestUrl) (by decide)

/-- Counterexample for C6: a server answering 404 directly makes
httpGetRedirect fail with the HTTP status error, not with the
did-not-get-expected-redirect error the claim asserts for every
non-redirect non-3xx status. -/
theorem C6_counterexample :
    httpGetRedirect net404 "https://a" = .error (.httpStatus 404 "https://a") ∧
    httpGetRedirect net404 "https://a" ≠ .error (.noRedirect "https://a") := by
  decide

/-- C6 as amended: httpGetRedirect resolves with the immediate Location
value of a 3xx response carrying a nonempty Location without following
any further hop; a direct 200 fails with the did-not-get-expected
redirect error; every other non-3xx status fails with the HTTP status
error carrying that status and the URL. -/
theorem C6_httpGetRedirect_contract (net : String → HttpResponse) :
    (∀ url loc : String, validUrl url = true →
      300 ≤ (net url).status → (net url).status < 400 →
      (net url).location = some loc → loc.length ≠ 0 →
      httpGetRedirect net url = .ok loc) ∧
    (∀ url : String, validUrl url = true → (net url).status = 200 →
      httpGetRedirect net url = .error (.noRedirect url)) ∧
    (∀ url : String, validUrl url = true →
      ¬ (300 ≤ (net url).status ∧ (net url).status < 400) → (net url).status ≠ 200 →
      httpGetRedirect net url = .error (.httpStatus (net url).status url)) := by
  refine ⟨?_, ?_, ?_⟩
  · intro url loc h1 hs1 hs2 hloc hl
    unfold httpGetRedirect
    rw [if_neg (by simp [h1]), if_pos ⟨hs1, hs2⟩, hloc]
    simp [hl]
  · intro url h1 hs
    unfold httpGetRedirect
    rw [if_neg (by simp [h1]), if_neg (by rw [hs]; decide), if_neg (by rw [hs]; decide)]
  · intro url h1 hs h200
    unfold httpGetRedirect
    rw [if_neg (by simp [h1]), if_neg hs, if_pos h200]

/-- Witness for C6 as amended, on three concrete servers: a single
redirect resolves to its target, a direct 200 yields the expected
redirect error, and a 404 yields the HTTP status error. -/
theorem C6_witness :
    httpGetRedirect netRedir "https://a" = .ok "https://t" ∧
    httpGetRedirect net200 "https://a" = .error (.noRedirect "https://a") ∧
    httpGetRedirect net404 "https://b" = .error (.httpStatus 404 "https://b") := by
  refine ⟨?_, ?_, ?_⟩
  · exact (C6_httpGetRedirect_contract netRedir).1 "https://a" "https://t" (by decide)
      (by decide) (by decide) (by decide) (by decide)
  · exact (C6_httpGetRedirect_contract net200).2.1 "https://a" (by decide) (by decide)
  · exact (C6_httpGetRedirect_contract net404).2.2 "https://b" (by decide) (by decide)
      (by decide)

/-- C7: listInstalled of a non-existent root is the empty sequence and
never an error; for an existing root the entries are exactly those
derived from version directories, every non-directory root entry being
skipped, and a file inside a version directory is included if and only
if its name begins with the canonical buf- marker. -/
theorem C7_listInstalled_contract (root : String) :
    listInstalled root none = [] ∧
    ∀ (es : List RootEntry) (e : DistEntry),
      e ∈ listInstalled root (some es) ↔
        ∃ v files b, RootEntry.dir v files ∈ es ∧ b ∈ files.map Prod.fst ∧
          strStartsWith b "buf-" = true ∧
          e = ⟨v ++ "/" ++ b, v, joinPath (joinPath root v) b⟩ :=
  ⟨rfl, fun _ _ => mem_listInstalled⟩

/-- Witness for C7: a missing root lists as empty, and a concrete root
with one version directory and one junk file lists the buf- file. -/
theorem C7_witness :
    listInstalled "/r" none = [] ∧
    (⟨"1.6.0/buf-x", "1.6.0", "/r/1.6.0/buf-x"⟩ : DistEntry) ∈
      listInstalled "/r" (some [.dir "1.6.0" [("buf-x", [])], .file "junk" []]) :=
  ⟨(C7_listInstalled_contract "/r").1,
   ((C7_listInstalled_contract "/r").2 _ _).mpr
     ⟨"1.6.0", [("buf-x", [])], "buf-x", by decide, by decide, by decide, by decide⟩⟩

/-- C8: every entry returned by ensureInstalled can be re-derived by
querying the listing of the final cache state by its name; and on the
download-and-write path, when the re-query after the write does not
find the expected release name, ensureInstalled fails fatally with the
failed-to-install error instead of returning. -/
theorem C8_post_install_verification :
    (∀ (env : Env) (vopt : Option String) (e : DistEntry),
      (ensureInstalled env vopt).result = .ok e →
        (listInstalled env.root (ensureInstalled env vopt).fsys).find?
          (fun i => i.name == e.name) = some e) ∧
    (∀ (env : Env) (v : String) (bytes : List Nat) (fs2 : List RootEntry),
      v ≠ "latest" →
      (listInstalled env.root env.fsys).find?
        (fun i => i.name == makeReleaseName ⟨env.platform, env.arch, v⟩) = none →
      httpDownload env.net (downloadUrl (makeReleaseName ⟨env.platform, env.arch, v⟩)) =
        .ok bytes →
      writeRelease env.fsys (makeReleaseName ⟨env.platform, env.arch, v⟩) bytes = .ok fs2 →
      (listInstalled env.root (some fs2)).find?
        (fun i => i.name == makeReleaseName ⟨env.platform, env.arch, v⟩) = none →
      ensureInstalled env (some v) = ⟨.error (.failedInstall v),
        [.netDownload (downloadUrl (makeReleaseName ⟨env.platform, env.arch, v⟩)),
         .fsWrite (makeReleaseName ⟨env.platform, env.arch, v⟩)], some fs2⟩) := by
  constructor
  · intro env vopt e h
    simp only [ensureInstalled] at h ⊢
    cases hres : (resolveVersion env.net vopt).1 with
    | error err =>
      simp only [hres] at h
      exact Except.noConfusion h
    | ok v =>
      simp only [hres] at h ⊢
      cases hfind : (listInstalled env.root env.fsys).find?
          (fun i => i.name == makeReleaseName ⟨env.platform, env.arch, v⟩) with
      | some entry =>
        simp only [hfind, Except.ok.injEq] at h ⊢
        subst h
        have hp := List.find?_some hfind
        rw [beq_iff_eq] at hp
        simp only [hp]
        exact hfind
      | none =>
        simp only [hfind] at h ⊢
        cases hdl : httpDownload env.net
            (downloadUrl (makeReleaseName ⟨env.platform, env.arch, v⟩)) with
        | error err =>
          simp only [hdl] at h
          exact Except.noConfusion h
        | ok bytes =>
          simp only [hdl] at h ⊢
          cases hwr : writeRelease env.fsys
              (makeReleaseName ⟨env.platform, env.arch, v⟩) bytes with
          | error err =>
            simp only [hwr] at h
            exact Except.noConfusion h
          | ok fs2 =>
            simp only [hwr] at h ⊢
            cases hfind2 : (listInstalled env.root (some fs2)).find?
                (fun i => i.name == makeReleaseName ⟨env.platform, env.arch, v⟩) with
            | some inst =>
              simp only [hfind2, Except.ok.injEq] at h ⊢
              subst h
              have hp := List.find?_some hfind2
              rw [beq_iff_eq] at hp
              simp only [hp]
              exact hfind2
            | none =>
              simp only [hfind2] at h
              exact Except.noConfusion h
  · intro env v bytes fs2 hv hfind hdl hwr hfind2
    have hrv : resolveVersion env.net (some v) = (.ok v, []) := by
      simp [resolveVersion, hv]
    simp only [ensureInstalled, hrv, hfind, hdl, hwr, hfind2]
    simp

/-- Witness for C8: the cache-hit entry of the concrete darwin host is
re-derivable from the final listing, and the concrete empty-version run
whose written file lands outside any version directory fails with the
failed-to-install error. -/
theorem C8_witness :
    (listInstalled envHit.root (ensureInstalled envHit (some "1.6.0")).fsys).find?
        (fun i => i.name == entryHit.name) = some entryHit ∧
    ensureInstalled envEmptyVersion (some "") = ⟨.error (.failedInstall ""),
      [.netDownload (downloadUrl (makeReleaseName ⟨"darwin", "arm64", ""⟩)),
       .fsWrite (makeReleaseName ⟨"darwin", "arm64", ""⟩)],
      some [RootEntry.file "buf-Darwin-arm64" [1, 2, 3]]⟩ := by
  constructor
  · exact C8_post_install_verification.1 envHit (some "1.6.0") entryHit (by decide)
  · exact C8_post_install_verification.2 envEmptyVersion "" [1, 2, 3]
      [RootEntry.file "buf-Darwin-arm64" [1, 2, 3]] (by decide) (by decide)
      (httpDownload_direct envEmptyVersion.net
        (downloadUrl (makeReleaseName ⟨"darwin", "arm64", ""⟩)) [1, 2, 3]
        (by decide) (by decide))
      (by decide) (by decide)

/-- C9: findBufInPath of an unset PATH is always not-found; shim
directories ending in node_modules/.bin or .npm-global/bin are excluded
before any existence check, so a PATH whose remaining candidates all
fail the existence check, in particular one whose only binary lives in
a shim directory, yields not-found; otherwise the result is the first
candidate in PATH order, with the executable name appended and tilde
expanded, that exists on disk. -/
theorem C9_findBufInPath_contract (exists? : String → Bool) (home : String) :
    findBufInPath exists? home none = none ∧
    (∀ s : String,
      (∀ p ∈ strSplit s ":",
          strEndsWith p "node_modules/.bin" = false →
          strEndsWith p ".npm-global/bin" = false →
          exists? (expandTilde home (joinPath p "buf")) = false) →
      findBufInPath exists? home (some s) = none) ∧
    (∀ s c : String,
      findBufInPath exists? home (some s) = some c ↔
        ∃ l1 l2, bufCandidates home s = l1 ++ c :: l2 ∧ exists? c = true ∧
          ∀ d ∈ l1, exists? d = false) := by
  refine ⟨rfl, ?_, ?_⟩
  · intro s hall
    show (bufCandidates home s).find? exists? = none
    rw [List.find?_eq_none]
    intro x hx
    simp only [bufCandidates, List.mem_map, List.mem_filter] at hx
    obtain ⟨y, ⟨p, ⟨⟨hpL, hq1⟩, hq2⟩, rfl⟩, rfl⟩ := hx
    have e1 : strEndsWith p "node_modules/.bin" = false := by simpa using hq1
    have e2 : strEndsWith p ".npm-global/bin" = false := by simpa using hq2
    have hex := hall p hpL e1 e2
    simp [hex]
  · intro s c
    show (bufCandidates home s).find? exists? = some c ↔ _
    rw [List.find?_eq_some]
    constructor
    · rintro ⟨hc, as, bs, heq, hall⟩
      exact ⟨as, bs, heq, hc, fun d hd => by simpa using hall d hd⟩
    · rintro ⟨l1, l2, heq, hc, hall⟩
      exact ⟨hc, l1, l2, heq, fun d hd => by simp [hall d hd]⟩

/-- Witness for C9: an unset PATH, a PATH holding only a shim
directory, and a PATH whose second entry holds the binary. -/
theorem C9_witness :
    findBufInPath existsUsr "/home/u" none = none ∧
    findBufInPath existsUsr "/home/u" (some "/shim/node_modules/.bin") = none ∧
    findBufInPath existsUsr "/home/u" (some "/fake:/usr/local/bin") =
      some "/usr/local/bin/buf" := by
  refine ⟨(C9_findBufInPath_contract existsUsr "/home/u").1, ?_, ?_⟩
  · exact (C9_findBufInPath_contract existsUsr "/home/u").2.1
      "/shim/node_modules/.bin" (by decide)
  · exact ((C9_findBufInPath_contract existsUsr "/home/u").2.2
      "/fake:/usr/local/bin" "/usr/local/bin/buf").mpr
      ⟨["/fake/buf"], [], by decide, by decide, by decide⟩

/-- C10: every entry of a cache listing has as version the name of an
immediate subdirectory of the root, a name equal to its version, a
slash and a buf- prefixed file name, and a bufPath equal to the join of
the root with its name, so the name alone locates the artifact under
the root and the version is its first path segment. -/
theorem C10_listInstalled_entry_invariant (root : String) (es : List RootEntry) :
    ∀ e ∈ listInstalled root (some es),
      (∃ files, RootEntry.dir e.version files ∈ es) ∧
      ∃ b, strStartsWith b "buf-" = true ∧ e.name = e.version ++ "/" ++ b ∧
        e.bufPath = joinPath root e.name := by
  intro e he
  obtain ⟨v, files, b, hmem, hb, hpre, rfl⟩ := mem_listInstalled.mp he
  refine ⟨⟨files, hmem⟩, b, hpre, rfl, ?_⟩
  show joinPath (joinPath root v) b = joinPath root (v ++ "/" ++ b)
  simp [joinPath, String.append_assoc]

/-- Witness for C10 at the concrete one-entry cache of the darwin
host. -/
theorem C10_witness :
    (∃ files, RootEntry.dir entryHit.version files ∈
        [RootEntry.dir "1.6.0" [("buf-Darwin-arm64", [7])]]) ∧
    ∃ b, strStartsWith b "buf-" = true ∧ entryHit.name = entryHit.version ++ "/" ++ b ∧
      entryHit.bufPath = joinPath "/r" entryHit.name :=
  C10_listInstalled_entry_invariant "/r" [RootEntry.dir "1.6.0" [("buf-Darwin-arm64", [7])]]
    entryHit (by decide)

end Bufbuild
